import Mathlib

/-!
Verification development for the ServerStatus-Glow server core:
the SQLite-backed time-series store (`src/server/src/db.rs`) and the
in-memory reconciliation / snapshot pipeline (`src/server/src/stats.rs`).
Rust `u64` fields are modelled as `Nat`, `i64` as `Int` (Rust `/` on `i64`
truncates toward zero, hence `Int.tdiv`), SQLite `REAL` aggregates as `Rat`.
SQLite tables are modelled as Lean lists of rows; `INSERT OR REPLACE` on a
UNIQUE key is modelled by `upsert` on an association list.
-/

namespace SSG

/-- Insert-or-replace on an association list, modelling SQLite
`INSERT OR REPLACE` on a UNIQUE key: if the key is present every binding of
it is overwritten, otherwise the pair is appended. -/
def upsert {K V : Type} [DecidableEq K] (m : List (K × V)) (k : K) (v : V) :
    List (K × V) :=
  if m.any (fun p => decide (p.1 = k)) then
    m.map (fun p => if p.1 = k then (k, v) else p)
  else m ++ [(k, v)]

/-- Maximum of a list of integers, `none` on the empty list
(models SQL `MAX(col)`, which is NULL on an empty table). -/
def maxInt? : List Int → Option Int
  | [] => none
  | t :: r =>
    some (match maxInt? r with
          | none => t
          | some m => max t m)

/-- Minimum of a list of integers, `none` on the empty list
(models SQL `MIN(col)`). -/
def minInt? : List Int → Option Int
  | [] => none
  | t :: r =>
    some (match minInt? r with
          | none => t
          | some m => min t m)

/-- Number of iterations of the Rust loop
`while current < e { current += step }` started at `s`:
the bucket count `⌈(e - s) / step⌉` for a positive step. -/
def numBuckets (s e step : Int) : Nat :=
  if 0 < step then (((e - s) + step - 1).tdiv step).toNat else 0

/-- Start timestamps of the aggregation buckets walked by
`Database::aggregate_data`: `s, s + step, s + 2*step, …`, strictly below `e`. -/
def bucketStarts (s e step : Int) : List Int :=
  (List.range (numBuckets s e step)).map (fun (m : Nat) => s + (m : Int) * step)

/-- Lexicographic three-way comparison of character lists; models Rust's
`Ord` for `String` (byte order coincides with scalar-value order). -/
def cmpChars : List Char → List Char → Ordering
  | [], [] => .eq
  | [], _ :: _ => .lt
  | _ :: _, [] => .gt
  | a :: as, b :: bs =>
    if a < b then .lt else if b < a then .gt else cmpChars as bs

/-- Three-way comparison of strings via their character lists
(Rust `String::cmp`). -/
def cmpStr (a b : String) : Ordering := cmpChars a.data b.data

/-- Three-way comparison of naturals (Rust `u64::cmp`). -/
def cmpNat (a b : Nat) : Ordering :=
  if a < b then .lt else if b < a then .gt else .eq

/-- Whether `pat` is a prefix of `hay` (character lists). -/
def hasPfx : List Char → List Char → Bool
  | [], _ => true
  | _ :: _, [] => false
  | a :: as, b :: bs => decide (a = b) && hasPfx as bs

/-- Whether `pat` occurs as a contiguous substring of `hay`; models Rust
`str::contains`. -/
def hasSub (pat : List Char) : List Char → Bool
  | [] => hasPfx pat []
  | b :: t => hasPfx pat (b :: t) || hasSub pat t

/-- String-level substring containment. -/
def strContains (hay pat : String) : Bool := hasSub pat.data hay.data

/-- Character-wise lower-casing (Rust `str::to_lowercase`). -/
def strLower (s : String) : String := ⟨s.data.map Char.toLower⟩

/-- Generic insertion step of an insertion sort driven by a boolean
"less-or-equal" test. -/
def insertLe {α : Type} (le : α → α → Bool) (a : α) : List α → List α
  | [] => [a]
  | b :: t => if le a b then a :: b :: t else b :: insertLe le a t

/-- Insertion sort by a boolean comparator; models Rust's `sort_by`
(which sorts the slice consistently with the comparator). -/
def sortLe {α : Type} (le : α → α → Bool) (l : List α) : List α :=
  l.foldr (insertLe le) []

/-- Truncation of a rational toward zero; models Rust's `as i64` cast
applied to an `f64` read from SQLite. -/
def ratTrunc (q : Rat) : Int := if 0 ≤ q then q.floor else q.ceil

/-- Exact average of a list of rationals (models SQL `AVG`);
`Rat.div` is division on `ℚ`. -/
def ratAvg (l : List Rat) : Rat := Rat.div l.sum (l.length : Rat)

/-! ## Data model of the SQLite store (`db.rs`) -/

/-- Row of the `hosts` table (`id INTEGER PRIMARY KEY, name, alias`,
`UNIQUE(name)`). -/
structure HostRow where
  id : Nat
  name : String
  «alias» : String
deriving DecidableEq, Repr

/-- Row of the raw `stats` table. -/
structure RawRow where
  host_id : Nat
  timestamp : Int
  cpu : Rat
  memory_total : Int
  memory_used : Int
  network_in : Int
  network_out : Int
  network_in_speed : Int
  network_out_speed : Int
  online : Bool
deriving DecidableEq, Repr

/-- Row of the raw `disk_stats` table. -/
structure DiskRow where
  host_id : Nat
  timestamp : Int
  mount_point : String
  disk_total : Int
  disk_used : Int
deriving DecidableEq, Repr

/-- UNIQUE key of `aggregated_stats`: `(host_id, timestamp, interval_minutes)`. -/
structure AggKey where
  host_id : Nat
  timestamp : Int
  interval : Int
deriving DecidableEq, Repr

/-- Value columns of `aggregated_stats` (averages are SQLite REALs). -/
structure AggVal where
  cpu : Rat
  memory_total : Rat
  memory_used : Rat
  network_in : Int
  network_out : Int
  network_in_speed : Rat
  network_out_speed : Rat
  online : Bool
deriving DecidableEq, Repr

/-- UNIQUE key of `aggregated_disk_stats`:
`(host_id, timestamp, interval_minutes, mount_point)`. -/
structure AggDiskKey where
  host_id : Nat
  timestamp : Int
  interval : Int
  mount_point : String
deriving DecidableEq, Repr

/-- Value columns of `aggregated_disk_stats`. -/
structure AggDiskVal where
  disk_total : Rat
  disk_used : Rat
deriving DecidableEq, Repr

/-- Row of the `last_network` table (`UNIQUE(host_id)`). -/
structure LastNetRow where
  host_id : Nat
  network_in : Int
  network_out : Int
  updated_at : Int
deriving DecidableEq, Repr

/-- The whole SQLite database owned by `Database`. -/
structure DB where
  hosts : List HostRow
  stats : List RawRow
  disk_stats : List DiskRow
  agg : List (AggKey × AggVal)
  aggDisk : List (AggDiskKey × AggDiskVal)
  last_network : List LastNetRow
deriving DecidableEq, Repr

/-- Modelled from the spec: one mounted-disk entry of a report
(`payload::DiskInfo` is not under `src/`); only the fields the server
core reads are kept (`mount_point`, `total`, `used`). -/
structure DiskInfo where
  mount_point : String
  total : Nat
  used : Nat
deriving DecidableEq, Repr

/-- Modelled from the spec: the OS identification block of a report
(`sys_info`), reduced to the fields the snapshot sweep reads. -/
structure SysInfo where
  os_name : String
  os_release : String
deriving DecidableEq, Repr

/-- Modelled from the spec: one telemetry report / live host stat
(`payload::HostStat` is not under `src/`); fields are those the server
core under `src/` reads and writes. -/
structure HostStat where
  name : String
  «alias» : String
  gid : String
  location : String
  host_type : String
  notify : Bool
  pos : Nat
  disabled : Bool
  weight : Nat
  labels : String
  vnstat : Bool
  network_in : Nat
  network_out : Nat
  last_network_in : Nat
  last_network_out : Nat
  network_rx : Nat
  network_tx : Nat
  latest_ts : Nat
  online4 : Bool
  online6 : Bool
  cpu : Rat
  memory_total : Nat
  memory_used : Nat
  uptime : Nat
  sys_info : Option SysInfo
  disks : List DiskInfo
deriving DecidableEq, Repr

/-! ## Store operations (`db.rs`) -/

/-- `Database::update_last_network` (`db.rs:42`): look the host up by name;
if present, insert-or-update its single `last_network` row (the SQL UPDATE
rewrites every row with that `host_id`); otherwise fail with
"Host not found" and write nothing.  `now` models `Utc::now().timestamp()`. -/
def update_last_network (db : DB) (host_name : String)
    (network_in network_out : Nat) (now : Int) : Except Unit DB :=
  match db.hosts.find? (fun h => decide (h.name = host_name)) with
  | some h =>
    if 0 < (db.last_network.filter (fun r => decide (r.host_id = h.id))).length then
      .ok { db with last_network :=
        db.last_network.map (fun r =>
          if r.host_id = h.id then
            { r with network_in := (network_in : Int),
                     network_out := (network_out : Int), updated_at := now }
          else r) }
    else
      .ok { db with last_network :=
        db.last_network ++
          [⟨h.id, (network_in : Int), (network_out : Int), now⟩] }
  | none => .error ()

/-- Fresh rowid handed out by SQLite for an `INSERT` into `hosts`
(`last_insert_rowid`): one more than the largest id in the table. -/
def nextHostId (db : DB) : Nat := (db.hosts.map (·.id)).foldr max 0 + 1

/-- `Database::ensure_host_exists` (`db.rs:288`): find the host row by the
report's name; if found, overwrite its alias when the report's alias is
non-empty; otherwise insert a new host row.  Returns the host id and the
updated table state. -/
def ensure_host_exists (db : DB) (stat : HostStat) : Nat × DB :=
  match db.hosts.find? (fun h => decide (h.name = stat.name)) with
  | some h =>
    (h.id,
      if stat.alias ≠ "" then
        { db with hosts := db.hosts.map (fun g =>
            if g.id = h.id then { g with «alias» := stat.alias } else g) }
      else db)
  | none =>
    (nextHostId db,
      { db with hosts := db.hosts ++ [⟨nextHostId db, stat.name, stat.alias⟩] })

/-- The raw `stats` row inserted by `Database::save_stat` for a report. -/
def mkRawRow (host_id : Nat) (stat : HostStat) : RawRow :=
  { host_id := host_id
    timestamp := (stat.latest_ts : Int)
    cpu := stat.cpu
    memory_total := (stat.memory_total : Int)
    memory_used := (stat.memory_used : Int)
    network_in := (stat.network_in : Int)
    network_out := (stat.network_out : Int)
    network_in_speed := (stat.network_rx : Int)
    network_out_speed := (stat.network_tx : Int)
    online := stat.online4 || stat.online6 }

/-- The `disk_stats` row inserted by `Database::save_stat` for one disk. -/
def mkDiskRow (host_id : Nat) (ts : Int) (d : DiskInfo) : DiskRow :=
  { host_id := host_id, timestamp := ts, mount_point := d.mount_point
    disk_total := (d.total : Int), disk_used := (d.used : Int) }

/-- Outcome of `Database::save_stat`: success flag (the `Result`) and the
database state afterwards. -/
structure SaveOutcome where
  ok : Bool
  db : DB
deriving DecidableEq, Repr

/-- `Database::save_stat` (`db.rs:234`): ensure the host row exists
(outside the transaction), then in one transaction insert the raw-stat row
and one `disk_stats` row per reported disk.  `fail j` injects a SQLite
failure into the j-th insert of the transaction (0 = the stat row,
`i + 1` = the i-th disk row); any failure makes the error propagate, the
transaction is dropped without commit and rolls back, leaving the tables
as they were before the transaction began. -/
def save_stat (fail : Nat → Bool) (db : DB) (stat : HostStat) : SaveOutcome :=
  let hid := (ensure_host_exists db stat).1
  let db1 := (ensure_host_exists db stat).2
  if fail 0 then ⟨false, db1⟩
  else if (List.range stat.disks.length).any (fun i => fail (i + 1)) then
    ⟨false, db1⟩
  else
    ⟨true,
      { db1 with
        stats := db1.stats ++ [mkRawRow hid stat]
        disk_stats := db1.disk_stats ++
          stat.disks.map (mkDiskRow hid (stat.latest_ts : Int)) }⟩

/-- Aggregation tier chosen by `Database::get_stats_by_timerange`
(`db.rs:320`) from the width of the requested range, in minutes
(0 means the raw table). -/
def selectInterval (time_range : Int) : Int :=
  if 3 * 24 * 3600 < time_range then 60
  else if 24 * 3600 ≤ time_range then 30
  else if 12 * 3600 ≤ time_range then 15
  else if 1 * 3600 ≤ time_range then 5
  else 0

/-- One point of a per-host series returned by `get_stats_by_timerange`
(`db.rs` `DiskRecord`). -/
structure DiskRecord where
  timestamp : Int
  mount_point : String
  total : Int
  used : Int
deriving DecidableEq, Repr

/-- One point of a per-host series returned by `get_stats_by_timerange`
(`db.rs` `HostStatRecord`). -/
structure HostStatRecord where
  timestamp : Int
  «alias» : String
  cpu : Rat
  memory_total : Int
  memory_used : Int
  network_in : Int
  network_out : Int
  network_in_speed : Int
  network_out_speed : Int
  online : Bool
  disks : List DiskRecord
deriving DecidableEq, Repr

/-- Raw `stats` rows of one host inside `[s, e]` (SQL `BETWEEN` is
inclusive on both ends). -/
def rawRowsInRange (stats : List RawRow) (hid : Nat) (s e : Int) : List RawRow :=
  stats.filter (fun r =>
    decide (r.host_id = hid) && decide (s ≤ r.timestamp) && decide (r.timestamp ≤ e))

/-- `aggregated_stats` rows of one host and tier inside `[s, e]`. -/
def aggRowsInRange (agg : List (AggKey × AggVal)) (hid : Nat) (s e iv : Int) :
    List (AggKey × AggVal) :=
  agg.filter (fun p =>
    decide (p.1.host_id = hid) && decide (s ≤ p.1.timestamp) &&
    decide (p.1.timestamp ≤ e) && decide (p.1.interval = iv))

/-- Record built from an `aggregated_stats` row: the REAL columns are read
back as `f64` and cast with `as i64` (truncation toward zero). -/
def aggRecord (host_alias : String) (p : AggKey × AggVal) : HostStatRecord :=
  { timestamp := p.1.timestamp
    «alias» := host_alias
    cpu := p.2.cpu
    memory_total := ratTrunc p.2.memory_total
    memory_used := ratTrunc p.2.memory_used
    network_in := p.2.network_in
    network_out := p.2.network_out
    network_in_speed := ratTrunc p.2.network_in_speed
    network_out_speed := ratTrunc p.2.network_out_speed
    online := p.2.online
    disks := [] }

/-- Record built from a raw `stats` row. -/
def rawRecord (host_alias : String) (r : RawRow) : HostStatRecord :=
  { timestamp := r.timestamp
    «alias» := host_alias
    cpu := r.cpu
    memory_total := r.memory_total
    memory_used := r.memory_used
    network_in := r.network_in
    network_out := r.network_out
    network_in_speed := r.network_in_speed
    network_out_speed := r.network_out_speed
    online := r.online
    disks := [] }

/-- Aggregated disk rows matched to one record by exact timestamp equality
(`db.rs:408`). -/
def aggDisksAt (aggDisk : List (AggDiskKey × AggDiskVal)) (hid : Nat)
    (ts iv : Int) : List DiskRecord :=
  (aggDisk.filter (fun p =>
      decide (p.1.host_id = hid) && decide (p.1.timestamp = ts) &&
      decide (p.1.interval = iv))).map
    (fun p => ⟨p.1.timestamp, p.1.mount_point, ratTrunc p.2.disk_total,
               ratTrunc p.2.disk_used⟩)

/-- Raw disk rows of one host inside `[s, e]`, ordered by
`timestamp ASC, mount_point ASC` (`db.rs:470`). -/
def rawDisksInRange (disk_stats : List DiskRow) (hid : Nat) (s e : Int) :
    List DiskRecord :=
  (sortLe
    (fun a b =>
      decide (a.timestamp < b.timestamp) ||
      (decide (a.timestamp = b.timestamp) &&
       (cmpStr a.mount_point b.mount_point ≠ Ordering.gt)))
    (disk_stats.filter (fun d =>
      decide (d.host_id = hid) && decide (s ≤ d.timestamp) &&
      decide (d.timestamp ≤ e)))).map
    (fun d => ⟨d.timestamp, d.mount_point, d.disk_total, d.disk_used⟩)

/-- Loop body of `Database::get_stats_by_timerange` for one discovered
host: with a tier selected (`interval_minutes > 0`) the aggregated tables
are served only when that tier has rows for this host in the range, and
otherwise *nothing* is produced for this host (`none`) — the `else` of the
source (`db.rs:435`) is attached to the tier test, not to the row-count
test, so there is no raw fallback; with no tier selected the raw tables
are served.  At most 600 points. -/
def hostSeries (db : DB) (iv s e : Int) (h : HostRow) :
    Option (List HostStatRecord) :=
  if 0 < iv then
    let aggRows := aggRowsInRange db.agg h.id s e iv
    if 0 < aggRows.length then
      let base := ((sortLe
          (fun a b => decide (a.1.timestamp ≤ b.1.timestamp))
          aggRows).take 600).map (aggRecord h.alias)
      some (base.map (fun st =>
        { st with disks := aggDisksAt db.aggDisk h.id st.timestamp iv }))
    else none
  else
    let base := ((sortLe
        (fun a b => decide (a.timestamp ≤ b.timestamp))
        (rawRowsInRange db.stats h.id s e)).take 600).map
      (rawRecord h.alias)
    let diskRecs := rawDisksInRange db.disk_stats h.id s e
    some (base.map (fun st =>
      { st with disks :=
          diskRecs.filter (fun d => decide (d.timestamp = st.timestamp)) }))

/-- Hosts having at least one raw `stats` row inside `[s, e]`
(the `DISTINCT`-join host discovery, `db.rs:333`). -/
def hostsInRange (db : DB) (s e : Int) : List HostRow :=
  db.hosts.filter (fun h =>
    db.stats.any (fun r =>
      decide (r.host_id = h.id) && decide (s ≤ r.timestamp) &&
      decide (r.timestamp ≤ e)))

/-- `Database::get_stats_by_timerange` (`db.rs:311`): pick the tier from
the range width, discover the hosts having raw rows in the range, and
build the per-host series map (`HashMap` insert modelled by `upsert`). -/
def get_stats_by_timerange (db : DB) (start_time end_time : Int) :
    List (String × List HostStatRecord) :=
  let iv := selectInterval (end_time - start_time)
  (hostsInRange db start_time end_time).foldl
    (fun result h =>
      match hostSeries db iv start_time end_time h with
      | some v => upsert result h.name v
      | none => result)
    []

/-- Raw `stats` rows of one host inside one aggregation bucket
`[t, t + step)` (`timestamp >= ? AND timestamp < ?`). -/
def bucketRaw (stats : List RawRow) (hid : Nat) (t step : Int) : List RawRow :=
  stats.filter (fun r =>
    decide (r.host_id = hid) && decide (t ≤ r.timestamp) &&
    decide (r.timestamp < t + step))

/-- Raw `disk_stats` rows of one host inside one aggregation bucket. -/
def bucketDisk (disk_stats : List DiskRow) (hid : Nat) (t step : Int) :
    List DiskRow :=
  disk_stats.filter (fun d =>
    decide (d.host_id = hid) && decide (t ≤ d.timestamp) &&
    decide (d.timestamp < t + step))

/-- Value columns aggregated over one non-empty bucket of raw rows
(`db.rs:566`): `AVG` for cpu, memory and the speeds, `MAX` for the
cumulative counters, `MAX(online)` (i.e. boolean OR). -/
def aggValOf (rows : List RawRow) : AggVal :=
  { cpu := ratAvg (rows.map (·.cpu))
    memory_total := ratAvg (rows.map (fun r => (r.memory_total : Rat)))
    memory_used := ratAvg (rows.map (fun r => (r.memory_used : Rat)))
    network_in := (maxInt? (rows.map (·.network_in))).getD 0
    network_out := (maxInt? (rows.map (·.network_out))).getD 0
    network_in_speed := ratAvg (rows.map (fun r => (r.network_in_speed : Rat)))
    network_out_speed := ratAvg (rows.map (fun r => (r.network_out_speed : Rat)))
    online := rows.any (·.online) }

/-- Distinct mount points of a bucket's disk rows (SQL `GROUP BY
mount_point`), in order of first appearance. -/
def mountsOf (rows : List DiskRow) : List String :=
  (rows.map (·.mount_point)).dedup

/-- Disk value columns aggregated over one mount-point group of a bucket
(`AVG(disk_total)`, `AVG(disk_used)`, `db.rs:611`). -/
def aggDiskValOf (rows : List DiskRow) (mnt : String) : AggDiskVal :=
  let g := rows.filter (fun d => decide (d.mount_point = mnt))
  { disk_total := ratAvg (g.map (fun d => (d.disk_total : Rat)))
    disk_used := ratAvg (g.map (fun d => (d.disk_used : Rat))) }

/-- First collection phase of `Database::aggregate_data` for
`aggregated_stats`: for every host and every bucket from `s` (exclusive
upper bound `e`), if the bucket holds raw rows, one aggregated row keyed
by the bucket start (a bucket with no raw rows is skipped). -/
def collectAgg (hosts : List HostRow) (stats : List RawRow) (iv s e : Int) :
    List (AggKey × AggVal) :=
  hosts.foldr
    (fun h acc =>
      ((bucketStarts s e (iv * 60)).filterMap (fun t =>
        let rows := bucketRaw stats h.id t (iv * 60)
        if rows.isEmpty then none
        else some (⟨h.id, t, iv⟩, aggValOf rows))) ++ acc)
    []

/-- First collection phase of `Database::aggregate_data` for
`aggregated_disk_stats`: for every host, bucket and mount-point group of
the bucket's raw disk rows, one aggregated disk row. -/
def collectDisk (hosts : List HostRow) (disk_stats : List DiskRow)
    (iv s e : Int) : List (AggDiskKey × AggDiskVal) :=
  hosts.foldr
    (fun h acc =>
      ((bucketStarts s e (iv * 60)).foldr
        (fun t acc2 =>
          let dl := bucketDisk disk_stats h.id t (iv * 60)
          (mountsOf dl).map (fun m => (⟨h.id, t, iv, m⟩, aggDiskValOf dl m))
            ++ acc2)
        []) ++ acc)
    []

/-- `SELECT MAX(timestamp) FROM aggregated_stats WHERE interval_minutes = ?`
(`db.rs:515`): `none` when the tier has no rows. -/
def lastAggTime (db : DB) (iv : Int) : Option Int :=
  maxInt? ((db.agg.filter (fun p => decide (p.1.interval = iv))).map
    (·.1.timestamp))

/-- Resume point of `Database::aggregate_data` (`db.rs:523`): the latest
aggregated timestamp of the tier, or the earliest raw timestamp when the
tier is empty (`unwrap_or(0)` when the raw table is empty too). -/
def resumePoint (db : DB) (iv : Int) : Int :=
  match lastAggTime db iv with
  | some t => t
  | none => (minInt? (db.stats.map (·.timestamp))).getD 0

/-- Upper aggregation bound (`db.rs:533`): `now` truncated down to a
bucket boundary with Rust's truncating `i64` division. -/
def alignedEnd (iv now : Int) : Int := (now.tdiv (iv * 60)) * (iv * 60)

/-- `Database::aggregate_data` (`db.rs:511`): compute the resume point and
the aligned upper bound; return unchanged when nothing is to do; otherwise
collect the bucket aggregates from the raw tables and, in one transaction,
`INSERT OR REPLACE` them into the two aggregated tables.  `now` models
`Utc::now().timestamp()`. -/
def aggregate_data (db : DB) (iv now : Int) : DB :=
  let s := resumePoint db iv
  let e := alignedEnd iv now
  if e ≤ s then db
  else
    { db with
      agg := (collectAgg db.hosts db.stats iv s e).foldl
        (fun m p => upsert m p.1 p.2) db.agg
      aggDisk := (collectDisk db.hosts db.disk_stats iv s e).foldl
        (fun m p => upsert m p.1 p.2) db.aggDisk }

/-- `Database::cleanup_old_data` (`db.rs:694`): delete raw stat and disk
rows older than the cutoff; aggregated tables are untouched.  Returns the
deleted row count and the new state. -/
def cleanup_old_data (db : DB) (retention_days now : Int) : Nat × DB :=
  let cutoff := now - retention_days * 24 * 60 * 60
  let keepS := db.stats.filter (fun r => !decide (r.timestamp < cutoff))
  let keepD := db.disk_stats.filter (fun d => !decide (d.timestamp < cutoff))
  ((db.stats.length - keepS.length) + (db.disk_stats.length - keepD.length),
    { db with stats := keepS, disk_stats := keepD })

/-! ## Reconciliation and snapshot pipeline (`stats.rs`) -/

/-- Modelled from the spec: the per-host registry entry
(`crate::config::Host` is not under `src/`), reduced to the fields the
counter-reset logic reads and writes. -/
structure HostCfg where
  last_network_in : Nat
  last_network_out : Nat
  monthstart : Nat
deriving DecidableEq, Repr

/-- Local wall-clock instant (`chrono::Local::now()`), reduced to the
fields the counter-reset logic reads. -/
structure LocalTime where
  day : Nat
  hour : Nat
  minute : Nat
deriving DecidableEq, Repr

/-- Reset condition of the counter-reset detection (`stats.rs:156`): the
stored anchor is zero, or the report's counter is non-zero and strictly
below the anchor, or the local day matches the host's monthstart at hour 0
within the first 5 minutes. -/
def resetTriggered (info : HostCfg) (st : HostStat) (t : LocalTime) : Bool :=
  decide (info.last_network_in = 0) ||
  (!decide (st.network_in = 0) && decide (st.network_in < info.last_network_in)) ||
  (decide (t.day = info.monthstart) && decide (t.hour = 0) && decide (t.minute < 5))

/-- Counter-reset handling of the report worker (`stats.rs:154`): skipped
entirely when the agent pre-accumulates with vnstat; otherwise either the
stored anchor is reset to the report's raw counters, or the report's
`last_network` fields are overwritten with the stored anchor.  Returns the
updated registry entry and the updated report. -/
def applyLastNetwork (info : HostCfg) (st : HostStat) (t : LocalTime) :
    HostCfg × HostStat :=
  if st.vnstat then (info, st)
  else if resetTriggered info st t then
    ({ info with last_network_in := st.network_in,
                 last_network_out := st.network_out }, st)
  else
    (info, { st with last_network_in := info.last_network_in,
                     last_network_out := info.last_network_out })

/-- Modelled from the spec: the since-anchor counter a downstream consumer
derives from the published fields (`network_in` minus the exposed
`last_network_in`), as a signed quantity. -/
def derivedIn (st : HostStat) : Int :=
  (st.network_in : Int) - (st.last_network_in : Int)

/-- `StatsMgr::report` (`stats.rs:372`): parse the payload (serde is the
external parser, passed as `parse`); a parsed report is sent into the
report channel, a failed parse is only logged — either way the function
returns `Ok(())`.  The result is the returned success flag paired with the
channel's queue afterwards. -/
def reportIngest {α : Type} (parse : α → Option HostStat)
    (chan : List HostStat) (data : α) : Bool × List HostStat :=
  match parse data with
  | some st => (true, chan ++ [st])
  | none => (true, chan)

/-- Comparator of the snapshot sort (`stats.rs:319`): weight descending,
then position ascending, then alias ascending (case-sensitive). -/
def cmpServers (a b : HostStat) : Ordering :=
  if a.weight ≠ b.weight then (cmpNat a.weight b.weight).swap
  else if a.pos ≠ b.pos then cmpNat a.pos b.pos
  else cmpStr a.alias b.alias

/-- Boolean "may come before" relation induced by `cmpServers`. -/
def serverLeB (a b : HostStat) : Bool := cmpServers a b ≠ Ordering.gt

/-- The snapshot sort: Rust's `sort_by` with the `cmpServers` comparator. -/
def sortServers (l : List HostStat) : List HostStat := sortLe serverLeB l

/-- Fixed OS identifier list of the snapshot sweep (`stats.rs:279`). -/
def OS_LIST : List String :=
  ["centos", "debian", "ubuntu", "arch", "windows", "macos", "pi",
   "android", "linux", "freebsd"]

/-- OS-label inference of the snapshot sweep (`stats.rs:282`): when no
`os=` label is present and sys_info is known, append `os=<first match>`
for the first identifier contained in the lower-cased release+name
string. -/
def osLabel (st : HostStat) : HostStat :=
  if strContains st.labels "os=" then st
  else
    match st.sys_info with
    | none => st
    | some si =>
      match OS_LIST.find? (fun s =>
        strContains (strLower si.os_release ++ " " ++ strLower si.os_name) s) with
      | none => st
      | some s =>
        if st.labels = "" then { st with labels := "os=" ++ s }
        else { st with labels := st.labels ++ ";os=" ++ s }

/-- Per-entry body of the timer sweep (`stats.rs:264`): a disabled entry
is published unchanged; otherwise clear both online flags when
`latest_ts + offline_threshold < now`, infer the OS label, and — when the
entry wants notifications and the global debounce gate is open — disable
the host if it is offline (`Custom`/`NodeDown` event emission itself is
not modelled). -/
def tickStat (now offline_threshold : Nat) (gateOpen : Bool)
    (st : HostStat) : HostStat :=
  if st.disabled then st
  else
    let s1 := if st.latest_ts + offline_threshold < now then
        { st with online4 := false, online6 := false }
      else st
    let s2 := osLabel s1
    if s2.notify && gateOpen then
      if s2.online4 || s2.online6 then s2 else { s2 with disabled := true }
    else s2

/-- Group-GC retention test (`stats.rs:256`): keep entries with no group,
or whose `latest_ts` is within the GC window. -/
def gcKeep (now group_gc : Nat) (st : HostStat) : Bool :=
  decide (st.gid = "") || decide (now ≤ st.latest_ts + group_gc)

/-- Server sequence of one published snapshot (`stats.rs:244`): optionally
garbage-collect group hosts, apply the per-entry sweep, and sort. -/
def publishServers (now offline_threshold group_gc : Nat)
    (gcRun gateOpen : Bool) (l : List HostStat) : List HostStat :=
  sortServers
    ((if gcRun then l.filter (gcKeep now group_gc) else l).map
      (tickStat now offline_threshold gateOpen))

/-! ## Helper lemmas about `upsert` -/

/-- Keys of an association list. -/
def keysOf {K V : Type} (m : List (K × V)) : List K := m.map Prod.fst

theorem mem_upsert_cases {K V : Type} [DecidableEq K] {m : List (K × V)}
    {k : K} {v : V} {p : K × V} (h : p ∈ upsert m k v) :
    p ∈ m ∨ p = (k, v) := by
  unfold upsert at h
  split at h
  · rcases List.mem_map.1 h with ⟨q, hq, hh⟩
    by_cases hqk : q.1 = k
    · right; rw [if_pos hqk] at hh; exact hh.symm
    · left; rw [if_neg hqk] at hh; exact hh ▸ hq
  · rcases List.mem_append.1 h with h1 | h1
    · exact Or.inl h1
    · exact Or.inr (List.mem_singleton.1 h1)

theorem key_surv_upsert {K V : Type} [DecidableEq K] {m : List (K × V)}
    {k0 : K} {v0 : V} {q : K × V} (h : q ∈ m) :
    ∃ p ∈ upsert m k0 v0, p.1 = q.1 := by
  unfold upsert
  split
  · refine ⟨if q.1 = k0 then (k0, v0) else q, List.mem_map_of_mem _ h, ?_⟩
    by_cases hqk : q.1 = k0
    · simp [hqk]
    · simp [hqk]
  · exact ⟨q, List.mem_append_left _ h, rfl⟩

/-- `k` is present in the association list and every binding of it has
value `v`. -/
def boundTo {K V : Type} [DecidableEq K] (m : List (K × V)) (k : K) (v : V) :
    Prop :=
  (∃ p ∈ m, p.1 = k) ∧ ∀ p ∈ m, p.1 = k → p.2 = v

theorem boundTo_upsert_self {K V : Type} [DecidableEq K] {m : List (K × V)}
    {k : K} {v : V} : boundTo (upsert m k v) k v := by
  constructor
  · unfold upsert
    split
    · rename_i hany
      rcases List.any_eq_true.1 hany with ⟨q, hq, hqk⟩
      refine ⟨(k, v), ?_, rfl⟩
      have h2 := List.mem_map_of_mem (fun p => if p.1 = k then (k, v) else p) hq
      simp only [of_decide_eq_true hqk, if_true] at h2
      exact h2
    · exact ⟨(k, v), List.mem_append_right _ (List.mem_singleton.2 rfl), rfl⟩
  · intro p hp hpk
    rcases mem_upsert_cases hp with h1 | h1
    · unfold upsert at hp
      split at hp
      · rcases List.mem_map.1 hp with ⟨q, hq, hh⟩
        by_cases hqk : q.1 = k
        · rw [if_pos hqk] at hh; rw [← hh]
        · rw [if_neg hqk] at hh; exact absurd (hh ▸ hpk) hqk
      · rename_i hany
        exact absurd (List.any_eq_true.2 ⟨p, h1, decide_eq_true hpk⟩) hany
    · rw [h1]

theorem boundTo_upsert_of {K V : Type} [DecidableEq K] {m : List (K × V)}
    {k k0 : K} {v v0 : V} (h : boundTo m k v) (himp : k0 = k → v0 = v) :
    boundTo (upsert m k0 v0) k v := by
  constructor
  · rcases h.1 with ⟨q, hq, hqk⟩
    rcases @key_surv_upsert _ _ _ _ k0 v0 _ hq with ⟨p, hp, hpk⟩
    exact ⟨p, hp, hpk.trans hqk⟩
  · intro p hp hpk
    rcases mem_upsert_cases hp with h1 | h1
    · exact h.2 p h1 hpk
    · rw [h1]; exact himp (by rw [h1] at hpk; exact hpk)

theorem upsert_of_boundTo {K V : Type} [DecidableEq K] {m : List (K × V)}
    {k : K} {v : V} (h : boundTo m k v) : upsert m k v = m := by
  unfold upsert
  rcases h.1 with ⟨q, hq, hqk⟩
  rw [if_pos (List.any_eq_true.2 ⟨q, hq, decide_eq_true hqk⟩)]
  have hmap : ∀ p ∈ m, (if p.1 = k then (k, v) else p) = p := by
    intro p hp
    by_cases hpk : p.1 = k
    · have hv := h.2 p hp hpk
      cases p
      simp only [if_pos hpk]
      simp_all
    · rw [if_neg hpk]
  rw [List.map_congr_left hmap]
  simp

theorem foldl_upsert_id {K V : Type} [DecidableEq K] {m : List (K × V)} :
    ∀ {L : List (K × V)}, (∀ p ∈ L, boundTo m p.1 p.2) →
      L.foldl (fun acc p => upsert acc p.1 p.2) m = m := by
  intro L
  induction L with
  | nil => intro _; rfl
  | cons p L ih =>
    intro h
    have h0 : upsert m p.1 p.2 = m := upsert_of_boundTo (h p (by simp))
    simp only [List.foldl_cons, h0]
    exact ih (fun q hq => h q (List.mem_cons_of_mem _ hq))

theorem boundTo_foldl {K V : Type} [DecidableEq K] {k : K} {v : V} :
    ∀ {L : List (K × V)} {m : List (K × V)},
      (∀ p ∈ L, p.1 = k → p.2 = v) →
      (boundTo m k v ∨ (k, v) ∈ L) →
      boundTo (L.foldl (fun acc p => upsert acc p.1 p.2) m) k v := by
  intro L
  induction L with
  | nil =>
    intro m _ h
    rcases h with h | h
    · exact h
    · cases h
  | cons p L ih =>
    intro m hL h
    simp only [List.foldl_cons]
    apply ih (fun q hq => hL q (List.mem_cons_of_mem _ hq))
    rcases h with h | h
    · exact Or.inl (boundTo_upsert_of h (fun he => hL p (by simp) he))
    · rcases List.mem_cons.1 h with h1 | h1
      · exact Or.inl (h1 ▸ boundTo_upsert_self)
      · exact Or.inr h1

theorem mem_foldl_upsert_cases {K V : Type} [DecidableEq K] {q : K × V} :
    ∀ {L : List (K × V)} {m : List (K × V)},
      q ∈ L.foldl (fun acc p => upsert acc p.1 p.2) m →
      q ∈ m ∨ q.1 ∈ keysOf L := by
  intro L
  induction L with
  | nil => intro m h; exact Or.inl h
  | cons p L ih =>
    intro m h
    simp only [List.foldl_cons] at h
    rcases ih h with h1 | h1
    · rcases mem_upsert_cases h1 with h2 | h2
      · exact Or.inl h2
      · right
        rw [h2]
        exact List.mem_map_of_mem _ (by simp)
    · right
      rcases List.mem_map.1 h1 with ⟨r, hr, hrk⟩
      exact List.mem_map.2 ⟨r, List.mem_cons_of_mem _ hr, hrk⟩

theorem key_surv_foldl_upsert {K V : Type} [DecidableEq K] :
    ∀ (L : List (K × V)) (m : List (K × V)) (q : K × V), q ∈ m →
      ∃ p ∈ L.foldl (fun acc p => upsert acc p.1 p.2) m, p.1 = q.1 := by
  intro L
  induction L with
  | nil => intro m q h; exact ⟨q, h, rfl⟩
  | cons p L ih =>
    intro m q h
    rcases @key_surv_upsert _ _ _ _ p.1 p.2 _ h with ⟨r, hr, hrk⟩
    rcases ih _ r hr with ⟨p2, hp2, hp2k⟩
    exact ⟨p2, by simpa using hp2, hp2k.trans hrk⟩

/-! ## Claim C1 -/

/-- Concrete store for C1: one host whose raw samples span four days and
whose aggregated tables are completely empty. -/
def dbC1 : DB :=
  { hosts := [⟨1, "h1", "a1"⟩]
    stats := [⟨1, 0, 10, 100, 50, 1000, 500, 7, 8, true⟩,
              ⟨1, 345600, 10, 100, 50, 1200, 600, 7, 8, true⟩]
    disk_stats := []
    agg := []
    aggDisk := []
    last_network := [] }

/-- C1: the freshness fallback claimed by the spec does not exist in the
code.  For the 4-day range `[0, 345600]` the 60-minute tier is selected,
host `h1` has two raw rows in the range and zero aggregated rows, yet
`get_stats_by_timerange` returns an empty map instead of the raw-table
series: the `else` branch holding the raw query is attached to
`interval_minutes > 0` instead of `agg_count > 0`, so the host is skipped
(the orphaned `continue` in the aggregated branch shows the raw branch was
meant as its fall-through). -/
theorem c1_no_raw_fallback :
    selectInterval (345600 - 0) = 60 ∧
    (rawRowsInRange dbC1.stats 1 0 345600).length = 2 ∧
    aggRowsInRange dbC1.agg 1 0 345600 60 = [] ∧
    hostsInRange dbC1 0 345600 = [⟨1, "h1", "a1"⟩] ∧
    get_stats_by_timerange dbC1 0 345600 = [] := by decide

/-! ## Claim C10 -/

theorem keys_series_fold (db : DB) (iv s e : Int) (name : String) :
    ∀ (l : List HostRow) (init : List (String × List HostStatRecord)),
      name ∈ keysOf (l.foldl
        (fun result h =>
          match hostSeries db iv s e h with
          | some v => upsert result h.name v
          | none => result) init) →
      name ∈ keysOf init ∨ ∃ h ∈ l, h.name = name := by
  intro l
  induction l with
  | nil => intro init h; exact Or.inl h
  | cons hd tl ih =>
    intro init h
    simp only [List.foldl_cons] at h
    rcases ih _ h with h1 | h1
    · cases hser : hostSeries db iv s e hd with
      | none => rw [hser] at h1; exact Or.inl h1
      | some v =>
        rw [hser] at h1
        rcases List.mem_map.1 h1 with ⟨p, hp, hpk⟩
        rcases mem_upsert_cases hp with h2 | h2
        · exact Or.inl (List.mem_map.2 ⟨p, h2, hpk⟩)
        · right
          exact ⟨hd, by simp, by rw [← hpk, h2]⟩
    · right
      rcases h1 with ⟨g, hg, hgn⟩
      exact ⟨g, List.mem_cons_of_mem _ hg, hgn⟩

/-- C10: a host name appears in the map returned by
`get_stats_by_timerange` only if the `hosts` table has a row with that
name owning at least one raw `stats` row with timestamp inside
`[start_time, end_time]`; hosts whose data survives only in the
aggregated tables are absent, whatever the selected tier. -/
theorem c10_result_hosts_have_raw_rows (db : DB) (s e : Int) (name : String)
    (h : name ∈ keysOf (get_stats_by_timerange db s e)) :
    ∃ hr ∈ db.hosts, hr.name = name ∧
      ∃ r ∈ db.stats, r.host_id = hr.id ∧ s ≤ r.timestamp ∧ r.timestamp ≤ e := by
  unfold get_stats_by_timerange at h
  rcases keys_series_fold db (selectInterval (e - s)) s e name _ _ h with h1 | h1
  · cases h1
  · rcases h1 with ⟨hr, hhr, hname⟩
    unfold hostsInRange at hhr
    rcases List.mem_filter.1 hhr with ⟨hmem, hany⟩
    rcases List.any_eq_true.1 hany with ⟨r, hrmem, hr2⟩
    simp only [Bool.and_eq_true, decide_eq_true_eq] at hr2
    exact ⟨hr, hmem, hname, r, hrmem, hr2.1.1, hr2.1.2, hr2.2⟩

/-- Witness for C10 at a concrete store: the map for the raw-tier query
`[0, 100]` contains `h1`, which indeed owns a raw row in the range. -/
theorem c10_result_hosts_have_raw_rows_witness :
    ∃ hr ∈ dbC1.hosts, hr.name = "h1" ∧
      ∃ r ∈ dbC1.stats, r.host_id = hr.id ∧ 0 ≤ r.timestamp ∧ r.timestamp ≤ 100 :=
  c10_result_hosts_have_raw_rows dbC1 0 100 "h1" (by decide)

/-! ## Claim C5 -/

/-- Neutral report used as a base for concrete instances. -/
def stDefault : HostStat :=
  { name := "h1", «alias» := "", gid := "", location := "", host_type := ""
    notify := true, pos := 0, disabled := false, weight := 0, labels := ""
    vnstat := false, network_in := 0, network_out := 0, last_network_in := 0
    last_network_out := 0, network_rx := 0, network_tx := 0, latest_ts := 0
    online4 := true, online6 := false, cpu := 0, memory_total := 0
    memory_used := 0, uptime := 0, sys_info := none, disks := [] }

/-- C5 counterexample: a payload that fails to parse does *not* produce a
`MalformedPayload` rejection — `StatsMgr::report` logs the error and still
returns `Ok(())` (`true` here); the report is merely not enqueued. -/
theorem c5_malformed_returns_ok_cex :
    (reportIngest (fun _ : Nat => (none : Option HostStat)) [] 0).1 = true ∧
    (reportIngest (fun _ : Nat => (none : Option HostStat)) [] 0).2 = [] :=
  ⟨rfl, rfl⟩

/-- C5 (amended): `StatsMgr::report` returns success for every payload;
a payload that fails to parse is dropped before the pipeline (nothing is
enqueued), a well-formed payload is enqueued — but no rejection is ever
surfaced to the caller. -/
theorem c5_report_always_ok {α : Type} (parse : α → Option HostStat)
    (chan : List HostStat) (data : α) :
    (reportIngest parse chan data).1 = true ∧
    (parse data = none → (reportIngest parse chan data).2 = chan) ∧
    (∀ st, parse data = some st →
      (reportIngest parse chan data).2 = chan ++ [st]) := by
  cases h : parse data with
  | none => simp [reportIngest, h]
  | some st => simp [reportIngest, h]

/-- Witness for C5 at a concrete parser and payload. -/
theorem c5_report_always_ok_witness :
    (reportIngest (fun _ : Nat => some stDefault) [] 7).1 = true ∧
    (reportIngest (fun _ : Nat => some stDefault) [] 7).2 = [] ++ [stDefault] :=
  ⟨(c5_report_always_ok (fun _ : Nat => some stDefault) [] 7).1,
   (c5_report_always_ok (fun _ : Nat => some stDefault) [] 7).2.2 stDefault rfl⟩

/-! ## Claim C3 -/

/-- Report for the C3 counterexample: zero cumulative counter against a
non-zero stored anchor, outside the monthly reset window. -/
def stC3 : HostStat :=
  { stDefault with network_in := 0, network_out := 0, last_network_in := 7 }

/-- C3 counterexample: with stored anchor 100 and a report carrying
`network_in = 0` (vnstat off, not the monthly window), no reset triggers,
the anchor 100 is written into the report, and the derived since-anchor
counter exposed downstream is negative — refuting the claim's "never go
negative". -/
theorem c3_negative_derived_cex :
    stC3.vnstat = false ∧
    resetTriggered ⟨100, 50, 1⟩ stC3 ⟨2, 3, 10⟩ = false ∧
    (applyLastNetwork ⟨100, 50, 1⟩ stC3 ⟨2, 3, 10⟩).2.last_network_in = 100 ∧
    derivedIn (applyLastNetwork ⟨100, 50, 1⟩ stC3 ⟨2, 3, 10⟩).2 < 0 := by
  decide

/-- C3 (amended): with vnstat off, the anchor is reset to the report's raw
counters exactly when the stored anchor is zero, or the report's counter
is non-zero and strictly below the anchor, or the local clock is in the
first five minutes of hour 0 of the monthstart day; otherwise the report's
last-network fields are overwritten with the stored anchor.  The derived
since-anchor counter is non-negative provided the report's `network_in` is
non-zero and the report's own carried `last_network_in` (left untouched in
the reset case) does not exceed it. -/
theorem c3_counter_reset (info : HostCfg) (st : HostStat) (t : LocalTime)
    (hv : st.vnstat = false) :
    (resetTriggered info st t = true ↔
      (info.last_network_in = 0 ∨
       (st.network_in ≠ 0 ∧ st.network_in < info.last_network_in) ∨
       (t.day = info.monthstart ∧ t.hour = 0 ∧ t.minute < 5))) ∧
    (resetTriggered info st t = true →
      applyLastNetwork info st t =
        ({ info with last_network_in := st.network_in,
                     last_network_out := st.network_out }, st)) ∧
    (resetTriggered info st t = false →
      applyLastNetwork info st t =
        (info, { st with last_network_in := info.last_network_in,
                         last_network_out := info.last_network_out })) ∧
    (st.network_in ≠ 0 → st.last_network_in ≤ st.network_in →
      0 ≤ derivedIn (applyLastNetwork info st t).2) := by
  refine ⟨?_, ?_, ?_, ?_⟩
  · simp only [resetTriggered, Bool.or_eq_true, Bool.and_eq_true,
      decide_eq_true_eq, Bool.not_eq_true', decide_eq_false_iff_not]
    tauto
  · intro hr
    simp only [applyLastNetwork, hv, Bool.false_eq_true, if_false, hr, if_true]
  · intro hr
    simp only [applyLastNetwork, hv, Bool.false_eq_true, if_false, hr,
      Bool.false_eq_true, if_false]
  · intro hnz hle
    cases hr : resetTriggered info st t with
    | true =>
      simp only [applyLastNetwork, hv, Bool.false_eq_true, if_false, hr,
        if_true, derivedIn]
      omega
    | false =>
      simp only [applyLastNetwork, hv, Bool.false_eq_true, if_false, hr,
        Bool.false_eq_true, if_false, derivedIn]
      rw [resetTriggered] at hr
      rcases Bool.or_eq_false_iff.1 hr with ⟨hB12, hB3⟩
      rcases Bool.or_eq_false_iff.1 hB12 with ⟨hB1, hB2⟩
      rcases Bool.and_eq_false_iff.1 hB2 with h2a | h2b
      · rw [Bool.not_eq_false', decide_eq_true_eq] at h2a
        exact absurd h2a hnz
      · rw [decide_eq_false_iff_not, not_lt] at h2b
        omega

/-- Report for the C3 witness: counter 150 grown past the stored anchor. -/
def stC3b : HostStat :=
  { stDefault with network_in := 150, network_out := 60, last_network_in := 0 }

/-- Witness for C3 at a concrete growing counter: anchor 100, report 150
(the 2nd step of the spec's `[100, 150, 40, 90]` scenario): no reset, the
report exposes the anchor, and the derived counter is non-negative. -/
theorem c3_counter_reset_witness :
    (resetTriggered ⟨100, 50, 1⟩ stC3b ⟨2, 3, 10⟩ = true ↔
      ((100 : Nat) = 0 ∨
       (stC3b.network_in ≠ 0 ∧ stC3b.network_in < 100) ∨
       ((2 : Nat) = 1 ∧ (3 : Nat) = 0 ∧ (10 : Nat) < 5))) ∧
    (0 ≤ derivedIn (applyLastNetwork ⟨100, 50, 1⟩ stC3b ⟨2, 3, 10⟩).2) := by
  have h := c3_counter_reset ⟨100, 50, 1⟩ stC3b ⟨2, 3, 10⟩ (by decide)
  exact ⟨h.1, h.2.2.2 (by decide) (by decide)⟩

/-! ## Claim C9 -/

/-- C9: `update_last_network` is an insert-or-update keyed by host.  When
a `hosts` row with the name exists it succeeds, every `last_network`
binding of that host id carries the new counters afterwards, exactly one
such binding family exists, no other table is touched, and repeating the
call returns the same state (idempotence); when no `hosts` row matches it
returns the host-not-found error and produces no new state. -/
theorem c9_update_last_network (db : DB) (host_name : String)
    (nin nout : Nat) (now : Int) :
    (∀ h, db.hosts.find? (fun g => decide (g.name = host_name)) = some h →
      ∃ db2, update_last_network db host_name nin nout now = .ok db2 ∧
        db2.hosts = db.hosts ∧ db2.stats = db.stats ∧
        db2.disk_stats = db.disk_stats ∧ db2.agg = db.agg ∧
        db2.aggDisk = db.aggDisk ∧
        (∀ r ∈ db2.last_network, r.host_id = h.id →
          r = ⟨h.id, (nin : Int), (nout : Int), now⟩) ∧
        (∃ r ∈ db2.last_network, r.host_id = h.id) ∧
        update_last_network db2 host_name nin nout now = .ok db2) ∧
    (db.hosts.find? (fun g => decide (g.name = host_name)) = none →
      update_last_network db host_name nin nout now = .error ()) := by
  constructor
  · intro h hfind
    set tgt : LastNetRow := ⟨h.id, (nin : Int), (nout : Int), now⟩ with htgt
    set f : LastNetRow → LastNetRow := fun r =>
      if r.host_id = h.id then
        { r with network_in := (nin : Int), network_out := (nout : Int),
                 updated_at := now }
      else r with hf
    have hfix : ∀ r : LastNetRow, r.host_id = h.id → f r = tgt := by
      intro r hr
      simp only [hf, if_pos hr, htgt]
      cases r
      simp_all
    have hfix2 : ∀ r : LastNetRow, r.host_id ≠ h.id → f r = r := by
      intro r hr
      simp only [hf, if_neg hr]
    have hhid : ∀ r : LastNetRow, (f r).host_id = r.host_id := by
      intro r
      by_cases hr : r.host_id = h.id
      · rw [hfix r hr, hr]
      · rw [hfix2 r hr]
    have htid : tgt.host_id = h.id := rfl
    by_cases hcnt :
        0 < (db.last_network.filter (fun r => decide (r.host_id = h.id))).length
    · refine ⟨{ db with last_network := db.last_network.map f }, ?_, rfl, rfl,
        rfl, rfl, rfl, ?_, ?_, ?_⟩
      · unfold update_last_network
        rw [hfind]
        simp only [if_pos hcnt]
      · intro r hr hrid
        rcases List.mem_map.1 hr with ⟨r0, hr0, hr0e⟩
        by_cases h0 : r0.host_id = h.id
        · rw [← hr0e]; exact hfix r0 h0
        · exfalso
          apply h0
          rw [← hr0e, hhid] at hrid
          exact hrid
      · rcases List.exists_mem_of_length_pos hcnt with ⟨r0, hr0⟩
        rcases List.mem_filter.1 hr0 with ⟨hr0m, hr0id⟩
        exact ⟨f r0, List.mem_map_of_mem f hr0m,
          by rw [hhid]; exact of_decide_eq_true hr0id⟩
      · unfold update_last_network
        rw [show ({ db with last_network := db.last_network.map f } : DB).hosts
            = db.hosts from rfl, hfind]
        have hcnt2 : 0 < ((db.last_network.map f).filter
            (fun r => decide (r.host_id = h.id))).length := by
          rcases List.exists_mem_of_length_pos hcnt with ⟨r0, hr0⟩
          rcases List.mem_filter.1 hr0 with ⟨hr0m, hr0id⟩
          apply List.length_pos.2
          intro hnil
          have hx : f r0 ∈ (db.last_network.map f).filter
              (fun r => decide (r.host_id = h.id)) := by
            refine List.mem_filter.2 ⟨List.mem_map_of_mem f hr0m, ?_⟩
            rw [hhid]
            exact hr0id
          rw [hnil] at hx
          cases hx
        simp only [if_pos hcnt2]
        have hmm : (db.last_network.map f).map f = db.last_network.map f := by
          rw [List.map_map]
          apply List.map_congr_left
          intro r _
          by_cases h0 : r.host_id = h.id
          · simp only [Function.comp_apply]
            rw [hfix r h0, hfix tgt htid]
          · simp only [Function.comp_apply]
            rw [hfix2 r h0, hfix2 r h0]
        rw [hmm]
    · refine ⟨{ db with last_network := db.last_network ++ [tgt] }, ?_,
          rfl, rfl, rfl, rfl, rfl, ?_, ?_, ?_⟩
      · unfold update_last_network
        rw [hfind]
        simp only [if_neg hcnt]
      · intro r hr hrid
        rcases List.mem_append.1 hr with h1 | h1
        · exfalso
          apply hcnt
          apply List.length_pos.2
          intro hnil
          have hx : r ∈ db.last_network.filter
              (fun r => decide (r.host_id = h.id)) :=
            List.mem_filter.2 ⟨h1, decide_eq_true hrid⟩
          rw [hnil] at hx
          cases hx
        · exact List.mem_singleton.1 h1
      · exact ⟨tgt, List.mem_append_right _ (List.mem_singleton.2 rfl), htid⟩
      · unfold update_last_network
        rw [show ({ db with last_network := db.last_network ++ [tgt] } : DB).hosts
            = db.hosts from rfl, hfind]
        have hcnt2 : 0 < (((db.last_network ++ [tgt]).filter
            (fun r => decide (r.host_id = h.id)))).length := by
          apply List.length_pos.2
          intro hnil
          have hx : tgt ∈ (db.last_network ++ [tgt]).filter
              (fun r => decide (r.host_id = h.id)) :=
            List.mem_filter.2
              ⟨List.mem_append_right _ (List.mem_singleton.2 rfl),
               decide_eq_true htid⟩
          rw [hnil] at hx
          cases hx
        simp only [if_pos hcnt2]
        have hmm : (db.last_network ++ [tgt]).map f = db.last_network ++ [tgt] := by
          rw [List.map_append]
          congr 1
          · have hpt : ∀ r ∈ db.last_network, f r = r := by
              intro r hr
              apply hfix2
              intro h0
              apply hcnt
              apply List.length_pos.2
              intro hnil
              have hx : r ∈ db.last_network.filter
                  (fun r => decide (r.host_id = h.id)) :=
                List.mem_filter.2 ⟨hr, decide_eq_true h0⟩
              rw [hnil] at hx
              cases hx
            calc db.last_network.map f
                = db.last_network.map (fun r => r) := List.map_congr_left hpt
              _ = db.last_network := by simp
          · show [f tgt] = [tgt]
            rw [hfix tgt htid]
        rw [hmm]
  · intro hfind
    unfold update_last_network
    rw [hfind]

/-- Store for the C9 witness: one host, no counter rows yet. -/
def dbC9 : DB :=
  { hosts := [⟨1, "h1", "a"⟩], stats := [], disk_stats := [], agg := []
    aggDisk := [], last_network := [] }

/-- The completely empty store. -/
def dbEmpty : DB :=
  { hosts := [], stats := [], disk_stats := [], agg := [], aggDisk := []
    last_network := [] }

/-- Witness for C9: on a store with host `h1` (id 1) and an empty
`last_network` table, the call succeeds and installs the single counter
row; on the empty store, the call fails. -/
theorem c9_update_last_network_witness :
    (∃ db2, update_last_network dbC9 "h1" 5 6 77 = .ok db2 ∧
      db2.hosts = dbC9.hosts ∧ db2.stats = dbC9.stats ∧
      db2.disk_stats = dbC9.disk_stats ∧ db2.agg = dbC9.agg ∧
      db2.aggDisk = dbC9.aggDisk ∧
      (∀ r ∈ db2.last_network, r.host_id = (1 : Nat) →
        r = ⟨1, (5 : Int), (6 : Int), 77⟩) ∧
      (∃ r ∈ db2.last_network, r.host_id = (1 : Nat)) ∧
      update_last_network db2 "h1" 5 6 77 = .ok db2) ∧
    update_last_network dbEmpty "h1" 5 6 77 = .error () :=
  ⟨(c9_update_last_network dbC9 "h1" 5 6 77).1 ⟨1, "h1", "a"⟩ (by decide),
   (c9_update_last_network dbEmpty "h1" 5 6 77).2 (by decide)⟩

/-! ## Claim C8 -/

theorem ensure_host_preserves (db : DB) (stat : HostStat) :
    (ensure_host_exists db stat).2.stats = db.stats ∧
    (ensure_host_exists db stat).2.disk_stats = db.disk_stats := by
  unfold ensure_host_exists
  cases db.hosts.find? (fun h => decide (h.name = stat.name)) with
  | some h =>
    by_cases ha : stat.alias ≠ ""
    · simp [ha]
    · simp [ha]
  | none => exact ⟨rfl, rfl⟩

/-- C8: `save_stat` writes the raw-stat row and the N per-disk rows
all-or-nothing.  On success the tables gain exactly the one stat row and
the `stat.disks.length` disk rows of this report; on any injected insert
failure the transaction rolls back and both tables are exactly as before
the call (the host row adjusted outside the transaction notwithstanding,
which touches neither `stats` nor `disk_stats`). -/
theorem c8_save_stat_atomic (fail : Nat → Bool) (db : DB) (stat : HostStat) :
    ((save_stat fail db stat).ok = true →
      (save_stat fail db stat).db.stats =
        db.stats ++ [mkRawRow (ensure_host_exists db stat).1 stat] ∧
      (save_stat fail db stat).db.disk_stats =
        db.disk_stats ++ stat.disks.map
          (mkDiskRow (ensure_host_exists db stat).1 (stat.latest_ts : Int)) ∧
      (save_stat fail db stat).db.disk_stats.length =
        db.disk_stats.length + stat.disks.length) ∧
    ((save_stat fail db stat).ok = false →
      (save_stat fail db stat).db.stats = db.stats ∧
      (save_stat fail db stat).db.disk_stats = db.disk_stats) := by
  have hpres := ensure_host_preserves db stat
  constructor
  · intro hok
    unfold save_stat at hok ⊢
    by_cases h0 : fail 0
    · rw [if_pos h0] at hok
      cases hok
    · rw [if_neg h0] at hok ⊢
      by_cases h1 : (List.range stat.disks.length).any (fun i => fail (i + 1))
        = true
      · rw [if_pos h1] at hok
        cases hok
      · rw [if_neg h1]
        refine ⟨?_, ?_, ?_⟩
        · show (ensure_host_exists db stat).2.stats ++ _ = _
          rw [hpres.1]
        · show (ensure_host_exists db stat).2.disk_stats ++ _ = _
          rw [hpres.2]
        · show ((ensure_host_exists db stat).2.disk_stats ++ _).length = _
          rw [List.length_append, hpres.2, List.length_map]
  · intro hko
    unfold save_stat at hko ⊢
    by_cases h0 : fail 0
    · rw [if_pos h0]
      exact hpres
    · rw [if_neg h0] at hko ⊢
      by_cases h1 : (List.range stat.disks.length).any (fun i => fail (i + 1))
        = true
      · rw [if_pos h1]
        exact hpres
      · rw [if_neg h1] at hko
        cases hko

/-- Report for the C8 witness: two mounted disks. -/
def stC8 : HostStat :=
  { stDefault with
    name := "h1"
    latest_ts := 123
    disks := [⟨"/", 10, 5⟩, ⟨"/var", 20, 9⟩] }

/-- Witness for C8: a fully successful save on a concrete store appends
the stat row and both disk rows; the length bookkeeping matches. -/
theorem c8_save_stat_atomic_witness :
    (save_stat (fun _ => false) dbC9 stC8).db.stats =
      dbC9.stats ++ [mkRawRow (ensure_host_exists dbC9 stC8).1 stC8] ∧
    (save_stat (fun _ => false) dbC9 stC8).db.disk_stats =
      dbC9.disk_stats ++ stC8.disks.map
        (mkDiskRow (ensure_host_exists dbC9 stC8).1 (stC8.latest_ts : Int)) ∧
    (save_stat (fun _ => false) dbC9 stC8).db.disk_stats.length =
      dbC9.disk_stats.length + stC8.disks.length :=
  (c8_save_stat_atomic (fun _ => false) dbC9 stC8).1 (by decide)

/-! ## Claims C6 and C7: comparator and sweep lemmas -/

theorem cmpNat_swap (a b : Nat) : cmpNat b a = (cmpNat a b).swap := by
  unfold cmpNat
  split_ifs <;> first | rfl | omega

theorem cmpChars_swap : ∀ (x y : List Char), cmpChars y x = (cmpChars x y).swap := by
  intro x
  induction x with
  | nil => intro y; cases y <;> rfl
  | cons a as ih =>
    intro y
    cases y with
    | nil => rfl
    | cons b bs =>
      show cmpChars (b :: bs) (a :: as) = (cmpChars (a :: as) (b :: bs)).swap
      simp only [cmpChars]
      by_cases h1 : a < b
      · rw [if_neg (lt_asymm h1), if_pos h1, if_pos h1]
        rfl
      · by_cases h2 : b < a
        · rw [if_pos h2, if_neg h1, if_pos h2]
          rfl
        · rw [if_neg h2, if_neg h1, if_neg h1, if_neg h2]
          exact ih bs

theorem cmpServers_swap (a b : HostStat) :
    cmpServers b a = (cmpServers a b).swap := by
  unfold cmpServers
  split_ifs <;> first
    | exact cmpNat_swap _ _
    | exact cmpChars_swap _ _
    | omega
    | (rw [cmpNat_swap]; try rfl)

theorem serverLeB_total (a b : HostStat) (h : serverLeB a b = false) :
    serverLeB b a = true := by
  rw [serverLeB, decide_eq_false_iff_not, not_not] at h
  rw [serverLeB, decide_eq_true_eq, cmpServers_swap, h]
  intro hc
  cases hc

theorem chain_insertLe {α : Type} (le : α → α → Bool)
    (htot : ∀ a b, le a b = false → le b a = true) (a : α) :
    ∀ (l : List α), List.Chain' (fun x y => le x y = true) l →
      List.Chain' (fun x y => le x y = true) (insertLe le a l) := by
  intro l
  induction l with
  | nil => intro _; simp [insertLe]
  | cons b t ih =>
    intro hch
    show List.Chain' _ (if le a b then a :: b :: t else b :: insertLe le a t)
    by_cases hab : le a b = true
    · rw [if_pos hab]
      exact List.Chain'.cons hab hch
    · rw [if_neg hab]
      have hba : le b a = true := htot a b (Bool.not_eq_true _ ▸ hab)
      apply List.chain'_cons'.2
      refine ⟨?_, ih hch.tail⟩
      intro y hy
      cases t with
      | nil =>
        simp only [insertLe, List.head?_cons, Option.mem_def,
          Option.some.injEq] at hy
        rw [← hy]
        exact hba
      | cons c t2 =>
        by_cases hac : le a c = true
        · simp only [insertLe, if_pos hac, List.head?_cons, Option.mem_def,
            Option.some.injEq] at hy
          rw [← hy]
          exact hba
        · simp only [insertLe, if_neg hac, List.head?_cons, Option.mem_def,
            Option.some.injEq] at hy
          rw [← hy]
          exact (List.chain'_cons.1 hch).1

theorem chain_sortLe {α : Type} (le : α → α → Bool)
    (htot : ∀ a b, le a b = false → le b a = true) (l : List α) :
    List.Chain' (fun x y => le x y = true) (sortLe le l) := by
  unfold sortLe
  induction l with
  | nil => simp
  | cons a t ih => exact chain_insertLe le htot a _ ih

theorem mem_insertLe {α : Type} (le : α → α → Bool) (a x : α) :
    ∀ (l : List α), x ∈ insertLe le a l ↔ x = a ∨ x ∈ l := by
  intro l
  induction l with
  | nil => simp [insertLe]
  | cons b t ih =>
    show x ∈ (if le a b then a :: b :: t else b :: insertLe le a t) ↔ _
    by_cases hab : le a b = true
    · rw [if_pos hab]
      simp only [List.mem_cons]
      try tauto
    · rw [if_neg hab]
      simp only [List.mem_cons, ih]
      try tauto

theorem mem_sortLe {α : Type} (le : α → α → Bool) (x : α) :
    ∀ (l : List α), x ∈ sortLe le l ↔ x ∈ l := by
  intro l
  induction l with
  | nil => simp [sortLe]
  | cons b t ih =>
    show x ∈ insertLe le b (sortLe le t) ↔ _
    rw [mem_insertLe, ih]
    simp [List.mem_cons]

/-- The adjacent-pair ordering asserted by the spec: weight strictly
descending, or equal weight and position ascending, or equal weight and
position and alias ascending (case-sensitive). -/
def claimOrd (a b : HostStat) : Prop :=
  b.weight < a.weight ∨
  (a.weight = b.weight ∧ a.pos ≤ b.pos) ∨
  (a.weight = b.weight ∧ a.pos = b.pos ∧ cmpStr a.alias b.alias ≠ Ordering.gt)

theorem serverLeB_imp_claimOrd (a b : HostStat) (h : serverLeB a b = true) :
    claimOrd a b := by
  rw [serverLeB, decide_eq_true_eq] at h
  unfold cmpServers at h
  by_cases hw : a.weight = b.weight
  · rw [if_neg (fun hc => hc hw)] at h
    by_cases hp : a.pos = b.pos
    · rw [if_neg (fun hc => hc hp)] at h
      exact Or.inr (Or.inr ⟨hw, hp, h⟩)
    · rw [if_pos hp] at h
      refine Or.inr (Or.inl ⟨hw, ?_⟩)
      unfold cmpNat at h
      rcases Nat.lt_trichotomy a.pos b.pos with h1 | h1 | h1
      · exact Nat.le_of_lt h1
      · exact Nat.le_of_eq h1
      · rw [if_neg (Nat.not_lt_of_lt h1), if_pos h1] at h
        exact absurd rfl h
  · rw [if_pos hw] at h
    left
    unfold cmpNat at h
    rcases Nat.lt_trichotomy a.weight b.weight with h1 | h1 | h1
    · rw [if_pos h1] at h
      exact absurd rfl h
    · exact absurd h1 hw
    · exact h1

/-- C6: every published snapshot is sorted: each adjacent pair (a, b) of
the server sequence satisfies `a.weight > b.weight`, or equal weights and
`a.pos ≤ b.pos`, or equal weights and positions and `a.alias ≤ b.alias`
in case-sensitive lexicographic order. -/
theorem c6_snapshot_sorted (now offline_threshold group_gc : Nat)
    (gcRun gateOpen : Bool) (l : List HostStat) :
    List.Chain' claimOrd
      (publishServers now offline_threshold group_gc gcRun gateOpen l) := by
  unfold publishServers sortServers
  exact List.Chain'.imp (fun a b h => serverLeB_imp_claimOrd a b h)
    (chain_sortLe serverLeB serverLeB_total _)

theorem osLabel_preserves (st : HostStat) :
    (osLabel st).online4 = st.online4 ∧ (osLabel st).online6 = st.online6 ∧
    (osLabel st).notify = st.notify := by
  unfold osLabel
  split
  · exact ⟨rfl, rfl, rfl⟩
  · split
    · exact ⟨rfl, rfl, rfl⟩
    · split
      · exact ⟨rfl, rfl, rfl⟩
      · split
        · exact ⟨rfl, rfl, rfl⟩
        · exact ⟨rfl, rfl, rfl⟩

theorem tickTail_preserves_online (gateOpen : Bool) (s1 : HostStat) :
    (let s2 := osLabel s1
     if s2.notify && gateOpen then
       if s2.online4 || s2.online6 then s2 else { s2 with disabled := true }
     else s2).online4 = s1.online4 ∧
    (let s2 := osLabel s1
     if s2.notify && gateOpen then
       if s2.online4 || s2.online6 then s2 else { s2 with disabled := true }
     else s2).online6 = s1.online6 := by
  have hos := osLabel_preserves s1
  by_cases h1 : ((osLabel s1).notify && gateOpen) = true
  · by_cases h2 : ((osLabel s1).online4 || (osLabel s1).online6) = true
    · simp only [h1, if_true, h2]
      exact ⟨hos.1, hos.2.1⟩
    · simp only [h1, if_true, h2, Bool.false_eq_true, if_false]
      exact ⟨hos.1, hos.2.1⟩
  · simp only [h1, Bool.false_eq_true, if_false]
    exact ⟨hos.1, hos.2.1⟩

/-- C7: for a live entry that is not disabled, the sweep clears both
online flags exactly at ticks where `latest_ts + offline_threshold < now`:
past the threshold the published entry has both flags false, otherwise the
flags are exactly the entry's own; and the swept entry is an element of
the published snapshot whenever the entry survives group GC. -/
theorem c7_liveness_sweep (now offline_threshold : Nat) (gateOpen : Bool)
    (st : HostStat) (hd : st.disabled = false) :
    (st.latest_ts + offline_threshold < now →
      (tickStat now offline_threshold gateOpen st).online4 = false ∧
      (tickStat now offline_threshold gateOpen st).online6 = false) ∧
    (¬ st.latest_ts + offline_threshold < now →
      (tickStat now offline_threshold gateOpen st).online4 = st.online4 ∧
      (tickStat now offline_threshold gateOpen st).online6 = st.online6) ∧
    (∀ (group_gc : Nat) (gcRun : Bool) (l : List HostStat),
      st ∈ (if gcRun then l.filter (gcKeep now group_gc) else l) →
      tickStat now offline_threshold gateOpen st ∈
        publishServers now offline_threshold group_gc gcRun gateOpen l) := by
  refine ⟨?_, ?_, ?_⟩
  · intro hlt
    unfold tickStat
    rw [if_neg (by rw [hd]; intro hc; cases hc), if_pos hlt]
    exact tickTail_preserves_online gateOpen _
  · intro hge
    unfold tickStat
    rw [if_neg (by rw [hd]; intro hc; cases hc), if_neg hge]
    exact tickTail_preserves_online gateOpen st
  · intro group_gc gcRun l hmem
    unfold publishServers sortServers
    rw [mem_sortLe]
    exact List.mem_map_of_mem _ hmem

/-- Live entry for the C7 witness: last heard at 10, both stacks online. -/
def stC7 : HostStat := { stDefault with latest_ts := 10, online6 := true }

/-- Witness for C7: with threshold 5 and `now = 100` the swept entry is
marked offline on both stacks. -/
theorem c7_liveness_sweep_witness :
    (tickStat 100 5 true stC7).online4 = false ∧
    (tickStat 100 5 true stC7).online6 = false :=
  (c7_liveness_sweep 100 5 true stC7 rfl).1 (by decide)

/-! ## Claim C2: bucket walk lemmas -/

theorem lt_numBuckets {s e step : Int} (hstep : 0 < step) (m : Nat) :
    m < numBuckets s e step ↔ s + (m : Int) * step < e := by
  unfold numBuckets
  rw [if_pos hstep]
  by_cases ha : 0 < e - s
  · have hnum : (0 : Int) ≤ e - s + step - 1 := by omega
    rw [Int.tdiv_eq_ediv hnum (le_of_lt hstep), Int.lt_toNat]
    constructor
    · intro h
      have h2 : (m : Int) + 1 ≤ (e - s + step - 1) / step := by omega
      have h3 := (Int.le_ediv_iff_mul_le hstep).1 h2
      rw [add_mul, one_mul] at h3
      have h4 : (m : Int) * step + step ≤ e - s + step - 1 := h3
      omega
    · intro h
      have h2 : ((m : Int) + 1) * step ≤ e - s + step - 1 := by
        rw [add_mul, one_mul]
        omega
      have h3 := (Int.le_ediv_iff_mul_le hstep).2 h2
      omega
  · have hms : 0 ≤ (m : Int) * step :=
      mul_nonneg (Int.natCast_nonneg m) (le_of_lt hstep)
    have hzero : (((e - s) + step - 1).tdiv step).toNat = 0 := by
      by_cases hn : 0 ≤ (e - s) + step - 1
      · rw [Int.tdiv_eq_ediv hn (le_of_lt hstep),
          Int.ediv_eq_zero_of_lt hn (by omega)]
        rfl
      · apply Int.toNat_of_nonpos
        have h1 : (e - s) + step - 1 = -(-((e - s) + step - 1)) := by ring
        rw [h1, Int.neg_tdiv]
        have h2 := @Int.tdiv_nonneg (-((e - s) + step - 1)) step
          (by omega) (le_of_lt hstep)
        omega
    rw [hzero]
    constructor
    · intro h
      exact absurd h (Nat.not_lt_zero m)
    · intro h
      exfalso
      omega

theorem mem_bucketStarts {s e step t : Int} (hstep : 0 < step) :
    t ∈ bucketStarts s e step ↔
      ∃ m : Nat, t = s + (m : Int) * step ∧ t < e := by
  unfold bucketStarts
  constructor
  · intro h
    rcases List.mem_map.1 h with ⟨m, hm, hme⟩
    rw [List.mem_range] at hm
    refine ⟨m, hme.symm, ?_⟩
    rw [← hme]
    exact (lt_numBuckets hstep m).1 hm
  · rintro ⟨m, rfl, hlt⟩
    exact List.mem_map.2
      ⟨m, List.mem_range.2 ((lt_numBuckets hstep m).2 hlt), rfl⟩

theorem mem_foldr_append {α β : Type} (f : α → List β) :
    ∀ (L : List α) (q : β),
      q ∈ L.foldr (fun t acc => f t ++ acc) [] ↔ ∃ t ∈ L, q ∈ f t := by
  intro L
  induction L with
  | nil => simp
  | cons t L ih =>
    intro q
    simp only [List.foldr_cons, List.mem_append, ih, List.mem_cons]
    constructor
    · rintro (h | ⟨u, hu, hq⟩)
      · exact ⟨t, Or.inl rfl, h⟩
      · exact ⟨u, Or.inr hu, hq⟩
    · rintro ⟨u, hu | hu, hq⟩
      · exact Or.inl (hu ▸ hq)
      · exact Or.inr ⟨u, hu, hq⟩

theorem mem_collectAgg {hosts : List HostRow} {stats : List RawRow}
    {iv s e : Int} {p : AggKey × AggVal} :
    p ∈ collectAgg hosts stats iv s e ↔
      ∃ h ∈ hosts, ∃ t ∈ bucketStarts s e (iv * 60),
        bucketRaw stats h.id t (iv * 60) ≠ [] ∧
        p = (⟨h.id, t, iv⟩, aggValOf (bucketRaw stats h.id t (iv * 60))) := by
  unfold collectAgg
  rw [mem_foldr_append]
  constructor
  · rintro ⟨h, hh, hp⟩
    rcases List.mem_filterMap.1 hp with ⟨t, ht, hsome⟩
    by_cases hem : (bucketRaw stats h.id t (iv * 60)).isEmpty
    · rw [if_pos hem] at hsome
      cases hsome
    · rw [if_neg hem] at hsome
      refine ⟨h, hh, t, ht, ?_, (Option.some.inj hsome).symm⟩
      exact List.isEmpty_eq_false.1 (Bool.not_eq_true _ ▸ hem)
  · rintro ⟨h, hh, t, ht, hne, hp⟩
    refine ⟨h, hh, List.mem_filterMap.2 ⟨t, ht, ?_⟩⟩
    show (if (bucketRaw stats h.id t (iv * 60)).isEmpty then none
      else some (⟨h.id, t, iv⟩, aggValOf (bucketRaw stats h.id t (iv * 60))))
      = some p
    rw [if_neg (by rw [List.isEmpty_eq_false.2 hne]; intro hc; cases hc), hp]

theorem mem_collectDisk {hosts : List HostRow} {disk_stats : List DiskRow}
    {iv s e : Int} {p : AggDiskKey × AggDiskVal} :
    p ∈ collectDisk hosts disk_stats iv s e ↔
      ∃ h ∈ hosts, ∃ t ∈ bucketStarts s e (iv * 60),
        ∃ mnt ∈ mountsOf (bucketDisk disk_stats h.id t (iv * 60)),
        p = (⟨h.id, t, iv, mnt⟩,
             aggDiskValOf (bucketDisk disk_stats h.id t (iv * 60)) mnt) := by
  unfold collectDisk
  rw [mem_foldr_append]
  constructor
  · rintro ⟨h, hh, hp⟩
    rw [mem_foldr_append] at hp
    rcases hp with ⟨t, ht, hp⟩
    rcases List.mem_map.1 hp with ⟨mnt, hmnt, hp2⟩
    exact ⟨h, hh, t, ht, mnt, hmnt, hp2.symm⟩
  · rintro ⟨h, hh, t, ht, mnt, hmnt, hp⟩
    refine ⟨h, hh, ?_⟩
    rw [mem_foldr_append]
    exact ⟨t, ht, List.mem_map.2 ⟨mnt, hmnt, hp.symm⟩⟩

/-- Store for the C2 counterexample: first raw sample at the unaligned
timestamp 100, a later one at 700, nothing aggregated yet. -/
def dbC2cex : DB :=
  { hosts := [⟨1, "h1", ""⟩]
    stats := [⟨1, 100, 10, 100, 50, 1000, 500, 7, 8, true⟩,
              ⟨1, 700, 20, 100, 60, 1100, 550, 9, 4, true⟩]
    disk_stats := []
    agg := []
    aggDisk := []
    last_network := [] }

/-- C2 counterexample: on the first-ever pass with earliest raw timestamp
100 and `now = 950`, the 5-minute aggregation writes rows at timestamps
100 and 700 — `100 % 300 ≠ 0` refutes bucket alignment, and the bucket
starting at 700 extends to 1000, past the truncated bound 900 (and past
`now`), refuting the no-partial-bucket part. -/
theorem c2_alignment_cex :
    resumePoint dbC2cex 5 = 100 ∧
    alignedEnd 5 950 = 900 ∧
    ((aggregate_data dbC2cex 5 950).agg.map (fun p => p.1.timestamp))
      = [100, 700] ∧
    ¬ ((100 : Int) % (5 * 60) = 0) ∧
    alignedEnd 5 950 < 700 + 5 * 60 := by decide

/-- C2 (amended): every row `aggregate_data` adds to either aggregated
table sits on the grid `resumePoint + m * interval_seconds` strictly below
the truncated bound `alignedEnd`; consequently, *when the resume point is
itself bucket-aligned*, every added row is bucket-aligned
(`timestamp % (interval*60) = 0`) and its bucket is fully elapsed
(`timestamp + interval*60 ≤ now`).  With an unaligned resume point — e.g.
the earliest raw timestamp on the first-ever pass — neither holds. -/
theorem c2_bucket_alignment (db : DB) (iv now : Int) (hiv : 0 < iv)
    (hnow : 0 ≤ now) :
    (∀ p ∈ (aggregate_data db iv now).agg, p ∈ db.agg ∨
      (∃ m : Nat,
        p.1.timestamp = resumePoint db iv + (m : Int) * (iv * 60)) ∧
      p.1.timestamp < alignedEnd iv now ∧ p.1.interval = iv ∧
      (resumePoint db iv % (iv * 60) = 0 →
        p.1.timestamp % (iv * 60) = 0 ∧
        p.1.timestamp + iv * 60 ≤ now)) ∧
    (∀ p ∈ (aggregate_data db iv now).aggDisk, p ∈ db.aggDisk ∨
      (∃ m : Nat,
        p.1.timestamp = resumePoint db iv + (m : Int) * (iv * 60)) ∧
      p.1.timestamp < alignedEnd iv now ∧ p.1.interval = iv ∧
      (resumePoint db iv % (iv * 60) = 0 →
        p.1.timestamp % (iv * 60) = 0 ∧
        p.1.timestamp + iv * 60 ≤ now)) := by
  have hstep : (0 : Int) < iv * 60 := by omega
  have hend : alignedEnd iv now ≤ now := by
    unfold alignedEnd
    rw [Int.tdiv_eq_ediv hnow (le_of_lt hstep)]
    exact Int.ediv_mul_le now (by omega)
  have hgrid : ∀ t : Int,
      (∃ m : Nat, t = resumePoint db iv + (m : Int) * (iv * 60)) →
      t < alignedEnd iv now →
      resumePoint db iv % (iv * 60) = 0 →
      t % (iv * 60) = 0 ∧ t + iv * 60 ≤ now := by
    rintro t ⟨m, rfl⟩ hlt hal
    constructor
    · rw [Int.add_mul_emod_self, hal]
    · have h1 : (iv * 60) ∣ alignedEnd iv now := by
        unfold alignedEnd
        exact ⟨now.tdiv (iv * 60), mul_comm _ _⟩
      have h2 : (iv * 60) ∣ resumePoint db iv := Int.dvd_of_emod_eq_zero hal
      have h3 : (iv * 60) ∣ (m : Int) * (iv * 60) := ⟨(m : Int), mul_comm _ _⟩
      have hdvd : (iv * 60) ∣ (alignedEnd iv now -
          (resumePoint db iv + (m : Int) * (iv * 60))) :=
        dvd_sub h1 (dvd_add h2 h3)
      have := Int.le_of_dvd (by omega) hdvd
      omega
  have hagg : aggregate_data db iv now =
      if alignedEnd iv now ≤ resumePoint db iv then db
      else { db with
        agg := (collectAgg db.hosts db.stats iv (resumePoint db iv)
          (alignedEnd iv now)).foldl (fun m p => upsert m p.1 p.2) db.agg
        aggDisk := (collectDisk db.hosts db.disk_stats iv (resumePoint db iv)
          (alignedEnd iv now)).foldl (fun m p => upsert m p.1 p.2)
          db.aggDisk } := rfl
  by_cases hse : alignedEnd iv now ≤ resumePoint db iv
  · rw [hagg, if_pos hse]
    exact ⟨fun p hp => Or.inl hp, fun p hp => Or.inl hp⟩
  · rw [hagg, if_neg hse]
    constructor
    · intro p hp
      rcases mem_foldl_upsert_cases hp with h1 | h1
      · exact Or.inl h1
      · right
        rcases List.mem_map.1 h1 with ⟨q, hq, hqk⟩
        rcases mem_collectAgg.1 hq with ⟨h, _, t, ht, _, hqe⟩
        rcases (mem_bucketStarts hstep).1 ht with ⟨m, rfl, hlt⟩
        have hkey : p.1 = (⟨h.id, resumePoint db iv + (m : Int) * (iv * 60),
            iv⟩ : AggKey) := by rw [← hqk, hqe]
        rw [hkey]
        exact ⟨⟨m, rfl⟩, hlt, rfl, hgrid _ ⟨m, rfl⟩ hlt⟩
    · intro p hp
      rcases mem_foldl_upsert_cases hp with h1 | h1
      · exact Or.inl h1
      · right
        rcases List.mem_map.1 h1 with ⟨q, hq, hqk⟩
        rcases mem_collectDisk.1 hq with ⟨h, _, t, ht, mnt, _, hqe⟩
        rcases (mem_bucketStarts hstep).1 ht with ⟨m, rfl, hlt⟩
        have hkey : p.1 = (⟨h.id, resumePoint db iv + (m : Int) * (iv * 60),
            iv, mnt⟩ : AggDiskKey) := by rw [← hqk, hqe]
        rw [hkey]
        exact ⟨⟨m, rfl⟩, hlt, rfl, hgrid _ ⟨m, rfl⟩ hlt⟩

/-- Store for the C2 witness: first raw sample at the aligned timestamp
300, nothing aggregated yet. -/
def dbC2w : DB :=
  { hosts := [⟨1, "h1", ""⟩]
    stats := [⟨1, 300, 10, 100, 50, 1000, 500, 7, 8, true⟩]
    disk_stats := []
    agg := []
    aggDisk := []
    last_network := [] }

/-- The aggregated row written for `dbC2w` by the 5-minute pass. -/
def pC2 : AggKey × AggVal := (⟨1, 300, 5⟩, ⟨10, 100, 50, 1000, 500, 7, 8, true⟩)

set_option maxRecDepth 4000 in
/-- Witness for C2: the row written from the aligned resume point 300 is
on the resume grid, below the truncated bound, and bucket-aligned with a
fully elapsed bucket. -/
theorem c2_bucket_alignment_witness :
    pC2 ∈ (aggregate_data dbC2w 5 950).agg ∧
    (pC2 ∈ dbC2w.agg ∨
      (∃ m : Nat, pC2.1.timestamp = resumePoint dbC2w 5 + (m : Int) * (5 * 60)) ∧
      pC2.1.timestamp < alignedEnd 5 950 ∧ pC2.1.interval = 5 ∧
      (resumePoint dbC2w 5 % (5 * 60) = 0 →
        pC2.1.timestamp % (5 * 60) = 0 ∧ pC2.1.timestamp + 5 * 60 ≤ 950)) :=
  ⟨by with_unfolding_all decide,
   (c2_bucket_alignment dbC2w 5 950 (by decide) (by decide)).1 pC2
     (by with_unfolding_all decide)⟩

/-! ## Claim C4: resume point and idempotence machinery -/

theorem maxInt?_eq_none : ∀ {l : List Int}, maxInt? l = none ↔ l = [] := by
  intro l
  cases l with
  | nil => simp [maxInt?]
  | cons t r => simp [maxInt?]

theorem maxInt?_mem : ∀ {l : List Int} {m : Int}, maxInt? l = some m → m ∈ l := by
  intro l
  induction l with
  | nil => intro m h; cases h
  | cons t r ih =>
    intro m h
    cases hr : maxInt? r with
    | none =>
      rw [maxInt?, hr] at h
      have hm : t = m := Option.some.inj h
      exact hm ▸ List.mem_cons_self t r
    | some m2 =>
      rw [maxInt?, hr] at h
      have hm : max t m2 = m := Option.some.inj h
      rcases max_choice t m2 with hc | hc
      · rw [hc] at hm
        exact hm ▸ List.mem_cons_self t r
      · rw [hc] at hm
        exact hm ▸ List.mem_cons_of_mem t (ih hr)

theorem maxInt?_le : ∀ {l : List Int} {x m : Int},
    x ∈ l → maxInt? l = some m → x ≤ m := by
  intro l
  induction l with
  | nil => intro x m hx; cases hx
  | cons t r ih =>
    intro x m hx h
    cases hr : maxInt? r with
    | none =>
      have hre : r = [] := maxInt?_eq_none.1 hr
      rw [maxInt?, hr] at h
      have hm : t = m := Option.some.inj h
      rcases List.mem_cons.1 hx with h1 | h1
      · omega
      · rw [hre] at h1; cases h1
    | some m2 =>
      rw [maxInt?, hr] at h
      have hm : max t m2 = m := Option.some.inj h
      rcases List.mem_cons.1 hx with h1 | h1
      · rw [← hm, h1]
        exact le_max_left t m2
      · have h2 := ih h1 hr
        rw [← hm]
        exact le_trans h2 (le_max_right t m2)

/-- Timestamps of the tier-`iv` rows of an aggregated table. -/
def tierTs (m : List (AggKey × AggVal)) (iv : Int) : List Int :=
  (m.filter (fun p => decide (p.1.interval = iv))).map (·.1.timestamp)

theorem lastAggTime_eq (db : DB) (iv : Int) :
    lastAggTime db iv = maxInt? (tierTs db.agg iv) := rfl

theorem mem_tierTs {m : List (AggKey × AggVal)} {iv t : Int} :
    t ∈ tierTs m iv ↔ ∃ p ∈ m, p.1.interval = iv ∧ p.1.timestamp = t := by
  unfold tierTs
  constructor
  · intro h
    rcases List.mem_map.1 h with ⟨p, hp, hpt⟩
    rcases List.mem_filter.1 hp with ⟨hpm, hpd⟩
    exact ⟨p, hpm, of_decide_eq_true hpd, hpt⟩
  · rintro ⟨p, hpm, hpi, hpt⟩
    exact List.mem_map.2 ⟨p, List.mem_filter.2 ⟨hpm, decide_eq_true hpi⟩, hpt⟩

theorem bucket_subgrid {s1 s2 e step : Int} (hstep : 0 < step) (m0 : Nat)
    (hs2 : s2 = s1 + (m0 : Int) * step) {t : Int}
    (ht : t ∈ bucketStarts s2 e step) : t ∈ bucketStarts s1 e step := by
  rcases (mem_bucketStarts hstep).1 ht with ⟨m, rfl, hlt⟩
  apply (mem_bucketStarts hstep).2
  refine ⟨m0 + m, ?_, hlt⟩
  rw [hs2]
  push_cast
  ring

theorem aggregate_eq (db : DB) (iv now : Int) :
    aggregate_data db iv now =
      if alignedEnd iv now ≤ resumePoint db iv then db
      else { db with
        agg := (collectAgg db.hosts db.stats iv (resumePoint db iv)
          (alignedEnd iv now)).foldl (fun m p => upsert m p.1 p.2) db.agg
        aggDisk := (collectDisk db.hosts db.disk_stats iv (resumePoint db iv)
          (alignedEnd iv now)).foldl (fun m p => upsert m p.1 p.2)
          db.aggDisk } := rfl

theorem aggregate_raw_frozen (db : DB) (iv now : Int) :
    (aggregate_data db iv now).hosts = db.hosts ∧
    (aggregate_data db iv now).stats = db.stats ∧
    (aggregate_data db iv now).disk_stats = db.disk_stats := by
  rw [aggregate_eq]
  split
  · exact ⟨rfl, rfl, rfl⟩
  · exact ⟨rfl, rfl, rfl⟩

theorem resumePoint_of_some {db : DB} {iv t : Int}
    (h : lastAggTime db iv = some t) : resumePoint db iv = t := by
  unfold resumePoint
  rw [h]

theorem resumePoint_of_none {db : DB} {iv : Int}
    (h : lastAggTime db iv = none) :
    resumePoint db iv = (minInt? (db.stats.map (·.timestamp))).getD 0 := by
  unfold resumePoint
  rw [h]

theorem resume_after (db : DB) (iv now : Int) (hiv : 0 < iv)
    (hse : ¬ alignedEnd iv now ≤ resumePoint db iv) :
    ∃ m0 : Nat, resumePoint (aggregate_data db iv now) iv =
      resumePoint db iv + (m0 : Int) * (iv * 60) := by
  have hstep : (0 : Int) < iv * 60 := by omega
  have haggeq : (aggregate_data db iv now).agg =
      (collectAgg db.hosts db.stats iv (resumePoint db iv)
        (alignedEnd iv now)).foldl (fun m p => upsert m p.1 p.2) db.agg := by
    rw [aggregate_eq, if_neg hse]
  cases hmax : lastAggTime (aggregate_data db iv now) iv with
  | some tstar =>
    have hres2 : resumePoint (aggregate_data db iv now) iv = tstar :=
      resumePoint_of_some hmax
    have htmem : tstar ∈ tierTs (aggregate_data db iv now).agg iv :=
      maxInt?_mem (by rw [← lastAggTime_eq]; exact hmax)
    rcases mem_tierTs.1 htmem with ⟨p, hpA, hpi, hpt⟩
    rw [haggeq] at hpA
    rcases mem_foldl_upsert_cases hpA with hcase | hcase
    · have htold : tstar ∈ tierTs db.agg iv := mem_tierTs.2 ⟨p, hcase, hpi, hpt⟩
      cases h0 : lastAggTime db iv with
      | none =>
        exfalso
        have hnil : tierTs db.agg iv = [] :=
          maxInt?_eq_none.1 (by rw [← lastAggTime_eq]; exact h0)
        rw [hnil] at htold
        cases htold
      | some s0 =>
        refine ⟨0, ?_⟩
        have hs1 : resumePoint db iv = s0 := resumePoint_of_some h0
        have hle : tstar ≤ s0 :=
          maxInt?_le htold (by rw [← lastAggTime_eq]; exact h0)
        have hs0mem : s0 ∈ tierTs db.agg iv :=
          maxInt?_mem (by rw [← lastAggTime_eq]; exact h0)
        rcases mem_tierTs.1 hs0mem with ⟨p0, hp0, hp0i, hp0t⟩
        rcases key_surv_foldl_upsert
          (collectAgg db.hosts db.stats iv (resumePoint db iv)
            (alignedEnd iv now)) db.agg p0 hp0 with ⟨p2, hp2, hp2k⟩
        have hs0A : s0 ∈ tierTs (aggregate_data db iv now).agg iv := by
          rw [haggeq]
          exact mem_tierTs.2 ⟨p2, hp2, by rw [hp2k]; exact hp0i,
            by rw [hp2k]; exact hp0t⟩
        have hge : s0 ≤ tstar :=
          maxInt?_le hs0A (by rw [← lastAggTime_eq]; exact hmax)
        rw [hres2, hs1]
        push_cast
        omega
    · rcases List.mem_map.1 hcase with ⟨q, hqL, hqk⟩
      rcases mem_collectAgg.1 hqL with ⟨h, _, t, ht, _, hqe⟩
      rcases (mem_bucketStarts hstep).1 ht with ⟨m, htm, _⟩
      refine ⟨m, ?_⟩
      rw [hres2, ← hpt, ← hqk, hqe]
      exact htm
  | none =>
    refine ⟨0, ?_⟩
    have hres2 := resumePoint_of_none hmax
    have hstats : (aggregate_data db iv now).stats = db.stats :=
      (aggregate_raw_frozen db iv now).2.1
    cases h0 : lastAggTime db iv with
    | some s0 =>
      exfalso
      have hnil : tierTs (aggregate_data db iv now).agg iv = [] :=
        maxInt?_eq_none.1 (by rw [← lastAggTime_eq]; exact hmax)
      have hs0mem : s0 ∈ tierTs db.agg iv :=
        maxInt?_mem (by rw [← lastAggTime_eq]; exact h0)
      rcases mem_tierTs.1 hs0mem with ⟨p0, hp0, hp0i, hp0t⟩
      rcases key_surv_foldl_upsert
        (collectAgg db.hosts db.stats iv (resumePoint db iv)
          (alignedEnd iv now)) db.agg p0 hp0 with ⟨p2, hp2, hp2k⟩
      have hs0A : s0 ∈ tierTs (aggregate_data db iv now).agg iv := by
        rw [haggeq]
        exact mem_tierTs.2 ⟨p2, hp2, by rw [hp2k]; exact hp0i,
          by rw [hp2k]; exact hp0t⟩
      rw [hnil] at hs0A
      cases hs0A
    | none =>
      have hres1 := resumePoint_of_none h0
      rw [hres2, hstats, ← hres1]
      push_cast
      omega

/-- C4: `aggregate_data` is incremental (its resume point is the maximum
aggregated timestamp of the tier, or the earliest raw timestamp when the
tier is empty) and idempotent: a second run at the same clock instant with
no intervening raw writes leaves both aggregated tables exactly as the
first run did — same rows, hence same row count and contents. -/
theorem c4_aggregate_idempotent (db : DB) (iv now : Int) (hiv : 0 < iv) :
    aggregate_data (aggregate_data db iv now) iv now =
      aggregate_data db iv now ∧
    (∀ t, lastAggTime db iv = some t → resumePoint db iv = t) ∧
    (lastAggTime db iv = none →
      resumePoint db iv = (minInt? (db.stats.map (·.timestamp))).getD 0) := by
  have hstep : (0 : Int) < iv * 60 := by omega
  refine ⟨?_, fun t h => resumePoint_of_some h, fun h => resumePoint_of_none h⟩
  by_cases hse : alignedEnd iv now ≤ resumePoint db iv
  · have h1 : aggregate_data db iv now = db := by rw [aggregate_eq, if_pos hse]
    rw [h1]
    exact h1
  · by_cases hse2 : alignedEnd iv now ≤ resumePoint (aggregate_data db iv now) iv
    · rw [aggregate_eq (aggregate_data db iv now), if_pos hse2]
    · obtain ⟨m0, hm0⟩ := resume_after db iv now hiv hse
      have hfroz := aggregate_raw_frozen db iv now
      have haggeq : (aggregate_data db iv now).agg =
          (collectAgg db.hosts db.stats iv (resumePoint db iv)
            (alignedEnd iv now)).foldl (fun m p => upsert m p.1 p.2) db.agg := by
        rw [aggregate_eq, if_neg hse]
      have hdiskeq : (aggregate_data db iv now).aggDisk =
          (collectDisk db.hosts db.disk_stats iv (resumePoint db iv)
            (alignedEnd iv now)).foldl (fun m p => upsert m p.1 p.2)
            db.aggDisk := by
        rw [aggregate_eq, if_neg hse]
      rw [aggregate_eq (aggregate_data db iv now), if_neg hse2,
        hfroz.1, hfroz.2.1, hfroz.2.2]
      have hAgg : (collectAgg db.hosts db.stats iv
          (resumePoint (aggregate_data db iv now) iv)
          (alignedEnd iv now)).foldl (fun m p => upsert m p.1 p.2)
          (aggregate_data db iv now).agg = (aggregate_data db iv now).agg := by
        apply foldl_upsert_id
        intro p hp
        rcases mem_collectAgg.1 hp with ⟨h, hh, t, ht, hne, hpe⟩
        have ht1 : t ∈ bucketStarts (resumePoint db iv) (alignedEnd iv now)
            (iv * 60) := bucket_subgrid hstep m0 hm0 ht
        have hmem1 : p ∈ collectAgg db.hosts db.stats iv (resumePoint db iv)
            (alignedEnd iv now) := mem_collectAgg.2 ⟨h, hh, t, ht1, hne, hpe⟩
        rw [haggeq]
        apply boundTo_foldl
        · intro q hq hqk
          rcases mem_collectAgg.1 hq with ⟨h2, _, t2, _, _, hqe⟩
          have hkey : (⟨h2.id, t2, iv⟩ : AggKey) = ⟨h.id, t, iv⟩ := by
            rw [hqe, hpe] at hqk
            exact hqk
          rw [AggKey.mk.injEq] at hkey
          rw [hqe, hpe]
          show aggValOf (bucketRaw db.stats h2.id t2 (iv * 60)) =
            aggValOf (bucketRaw db.stats h.id t (iv * 60))
          rw [hkey.1, hkey.2.1]
        · exact Or.inr hmem1
      have hDisk : (collectDisk db.hosts db.disk_stats iv
          (resumePoint (aggregate_data db iv now) iv)
          (alignedEnd iv now)).foldl (fun m p => upsert m p.1 p.2)
          (aggregate_data db iv now).aggDisk =
          (aggregate_data db iv now).aggDisk := by
        apply foldl_upsert_id
        intro p hp
        rcases mem_collectDisk.1 hp with ⟨h, hh, t, ht, mnt, hmnt, hpe⟩
        have ht1 : t ∈ bucketStarts (resumePoint db iv) (alignedEnd iv now)
            (iv * 60) := bucket_subgrid hstep m0 hm0 ht
        have hmem1 : p ∈ collectDisk db.hosts db.disk_stats iv
            (resumePoint db iv) (alignedEnd iv now) :=
          mem_collectDisk.2 ⟨h, hh, t, ht1, mnt, hmnt, hpe⟩
        rw [hdiskeq]
        apply boundTo_foldl
        · intro q hq hqk
          rcases mem_collectDisk.1 hq with ⟨h2, _, t2, _, mnt2, _, hqe⟩
          have hkey : (⟨h2.id, t2, iv, mnt2⟩ : AggDiskKey) =
              ⟨h.id, t, iv, mnt⟩ := by
            rw [hqe, hpe] at hqk
            exact hqk
          rw [AggDiskKey.mk.injEq] at hkey
          rw [hqe, hpe]
          show aggDiskValOf (bucketDisk db.disk_stats h2.id t2 (iv * 60)) mnt2 =
            aggDiskValOf (bucketDisk db.disk_stats h.id t (iv * 60)) mnt
          rw [hkey.1, hkey.2.1, hkey.2.2.2]
        · exact Or.inr hmem1
      rw [hAgg, hDisk, ← hfroz.1, ← hfroz.2.1, ← hfroz.2.2]

/-- Witness for C4 at a concrete store and clock instant. -/
theorem c4_aggregate_idempotent_witness :
    aggregate_data (aggregate_data dbC2w 5 950) 5 950 =
      aggregate_data dbC2w 5 950 ∧
    (∀ t, lastAggTime dbC2w 5 = some t → resumePoint dbC2w 5 = t) ∧
    (lastAggTime dbC2w 5 = none →
      resumePoint dbC2w 5 = (minInt? (dbC2w.stats.map (·.timestamp))).getD 0) :=
  c4_aggregate_idempotent dbC2w 5 950 (by decide)

end SSG
